import Mathlib

/-!
Shallow embedding of `src/pcmalloc_v0.23/src/time_event_queue.c` (NightWatch /
pcmalloc time-event queue) and verification of the frozen claims about it.

Modelling conventions:
* `struct timeval` is modelled as a single `Int` counting microseconds; the
  external helpers `tv_add` / `tv_sub` / `tv_cmp` are the (sec, usec)
  arithmetic collaborators of the C code, collapsed onto the integer model.
* `gettimeofday` is modelled by explicit `now` / `sample` parameters of the
  operations that perform it.
* The one-shot interval timer is modelled by the last value passed to
  `set_timer` (`itv.it_value`); `0` means disarmed (the C code disarms by
  setting a zero time).
* Handlers (`time_event_handler`) are opaque callbacks identified by a `Nat`;
  `none` models a `NULL` handler.  A handler invocation is recorded in an
  action trace rather than executed, together with the snapshot of the
  context index at the moment of the call.
* `hash_map_64` (external collaborator) is modelled as an association list
  from the `uint64` cast of the `private` context pointer to the event's
  ghost sequence tag, with first-match lookup and first-match delete.
* Each `struct event` carries a ghost field `seq`, its submission sequence
  number, standing for the C record's pointer identity while the event is
  live and letting submission order be stated; it is not a field of the C
  struct and no branch of the model reads it to make a decision the C code
  does not make.
* `TIMER_RESOLUTION` is a macro of the header `time_event_queue.h`, which is
  not part of the given source; the resolution is therefore a parameter
  `res` of every operation (the spec describes it as a fixed coalescing
  window).
* `pc_malloc` can fail (return `NULL`).  The C code has no error path for
  that case (`add_time_event` either trips an `assert` or dereferences the
  null pointer); the model renders that absence of a defined continuation as
  `none`.
-/

namespace TEQ

/-- External helper `tv_add` (the C version adds into its first argument). -/
def tv_add (a b : Int) : Int := a + b

/-- External helper `tv_sub` (the C version subtracts into its first argument). -/
def tv_sub (a b : Int) : Int := a - b

/-- External helper `tv_cmp`: three-way compare, `-1` / `0` / `1`. -/
def tv_cmp (a b : Int) : Int :=
  if a < b then -1 else if a = b then 0 else 1

/-- `#define EVENT_QUEUE_EMPTY 0` -/
def EVENT_QUEUE_EMPTY : Nat := 0

/-- `#define EVENT_QUEUE_PENDING 1` -/
def EVENT_QUEUE_PENDING : Nat := 1

/-- `#define EVENT_QUEUE_ACTIVE 2` -/
def EVENT_QUEUE_ACTIVE : Nat := 2

/-- `struct event`.  `handler` is the callback (`none` = `NULL`), `priv` the
`void *private` context pointer (as its `uint64` cast), `start_time` and
`trigger_time` as in the C struct.  `seq` is a ghost submission tag standing
for the record's identity (see the module comment); the intrusive link field
`p` is implicit in list membership. -/
structure Event where
  handler : Option Nat
  priv : Nat
  start_time : Int
  trigger_time : Int
  seq : Nat
deriving Repr, DecidableEq

/-- Association-list model of the external `hash_map_64`: add a member. -/
def hash_map_64_add_member (m : List (Nat × Nat)) (k v : Nat) : List (Nat × Nat) :=
  (k, v) :: m

/-- Association-list model of the external `hash_map_64`: find a member. -/
def hash_map_64_find_member (m : List (Nat × Nat)) (k : Nat) : Option Nat :=
  (m.find? (fun kv => kv.fst = k)).map Prod.snd

/-- Association-list model of the external `hash_map_64`: delete a member. -/
def hash_map_64_delete_member (m : List (Nat × Nat)) (k : Nat) : List (Nat × Nat) :=
  m.eraseP (fun kv => kv.fst = k)

/-- The file-scope mutable state of `time_event_queue.c`:
`event_queue.state`, `event_queue.nr_event`, the ordered list
`event_queue.events` (front = soonest), the free list `free_event`, the last
armed timer value `itv.it_value` (0 = disarmed), the context index
`private2event_map`, and the ghost supply `nextSeq` of submission tags. -/
structure TEQState where
  state : Nat
  nr_event : Nat
  events : List Event
  free_event : List Event
  timer : Int
  index : List (Nat × Nat)
  nextSeq : Nat
deriving Repr, DecidableEq

/-- The due test of `do_trigger_time_event`:
`tv_cmp(&now, &triggered->trigger_time) != -1` where `now` is the reference
time already advanced by `timer_resolution`. -/
def is_due (bound : Int) (e : Event) : Bool :=
  tv_cmp bound e.trigger_time != -1

/-- The insertion scan of `add_time_event` (lines 188-195): walk the ordered
list, stop at the first entry whose `trigger_time` is strictly greater than
the new event's, and insert immediately before it (at the end when no such
entry exists). -/
def insert_in_order (e : Event) : List Event → List Event
  | [] => [e]
  | x :: xs =>
    if tv_cmp e.trigger_time x.trigger_time = -1 then e :: x :: xs
    else x :: insert_in_order e xs

/-- Observable actions of a run, recorded in traces.
`invoke e t m` records a handler call `e.handler(e.priv, &t)` performed while
the context index held `m`; `delIndex` a `hash_map_64_delete_member` done by
the firing loop; `recycle` the return of a fired record to the free list;
`resumeCall r` an invocation of `do_resume_event_queue` with reference time
`r` (`none` = `NULL`, i.e. sample the clock). -/
inductive Act where
  | delIndex (priv : Nat)
  | invoke (e : Event) (t : Int) (m : List (Nat × Nat))
  | recycle (sq : Nat)
  | resumeCall (r : Option Int)
deriving Repr, DecidableEq

/-- Result of the firing loop of `do_trigger_time_event`: the remaining
event list, the updated context index, the updated free list, the fired
events in firing order, and the action trace. -/
structure TrigRes where
  events : List Event
  index : List (Nat × Nat)
  free : List Event
  fired : List Event
  acts : List Act
deriving Repr, DecidableEq

/-- The `while` loop of `do_trigger_time_event` (lines 100-112): while the
list is non-empty and its head is due, delete the head's context from the
index, unlink it, invoke its handler unless `NULL`, and return the record to
the front of the free list; stop at the first head that is not due. -/
def triggerLoop (bound : Int) :
    List Event → List (Nat × Nat) → List Event → TrigRes
  | [], idx, free => ⟨[], idx, free, [], []⟩
  | e :: rest, idx, free =>
    if is_due bound e then
      let idx1 := hash_map_64_delete_member idx e.priv
      let invokeActs : List Act :=
        match e.handler with
        | some _ => [Act.invoke e bound idx1]
        | none => []
      let r := triggerLoop bound rest idx1 (e :: free)
      ⟨r.events, r.index, r.free, e :: r.fired,
        (Act.delIndex e.priv :: invokeActs ++ [Act.recycle e.seq]) ++ r.acts⟩
    else
      ⟨e :: rest, idx, free, [], []⟩

/-- `do_trigger_time_event(now)`: the C code first adds `timer_resolution`
into its by-value copy of `now` (so handlers receive `reference + resolution`
as their time argument), then runs the firing loop. -/
def do_trigger_time_event (res now : Int) (σ : TEQState) : TEQState × TrigRes :=
  let bound := tv_add now res
  let r := triggerLoop bound σ.events σ.index σ.free_event
  ({ σ with events := r.events, index := r.index, free_event := r.free }, r)

/-- `set_timer`: store the armed one-shot value (`itv.it_value`). -/
def set_timer (t : Int) (σ : TEQState) : TEQState := { σ with timer := t }

/-- `sync_set`: atomic exchange on `event_queue.state`, returning the
previous value. -/
def sync_set (v : Nat) (σ : TEQState) : Nat × TEQState :=
  (σ.state, { σ with state := v })

/-- `do_pend_event_queue` (lines 115-132): swap the state to PENDING; if it
already was PENDING return at once, otherwise disarm the timer
(`set_timer` with a zero time). -/
def do_pend_event_queue (σ : TEQState) : Nat × TEQState :=
  let p := sync_set EVENT_QUEUE_PENDING σ
  if p.fst = EVENT_QUEUE_PENDING then p
  else (p.fst, set_timer 0 p.snd)

/-- `do_resume_event_queue(now)` (lines 134-166): swap the state to ACTIVE;
if it already was ACTIVE return at once.  Otherwise take the reference time
(`sample` models the `gettimeofday` performed when the argument is `NULL`),
fire all due events, and, if events remain, arm the timer for
`earliest trigger_time − reference`. -/
def do_resume_event_queue (res : Int) (now : Option Int) (sample : Int)
    (σ : TEQState) : TEQState × List Act :=
  let p := sync_set EVENT_QUEUE_ACTIVE σ
  if p.fst = EVENT_QUEUE_ACTIVE then (p.snd, [])
  else
    let tv0 : Int := match now with | none => sample | some t => t
    let tr := do_trigger_time_event res tv0 p.snd
    match tr.fst.events with
    | [] => (tr.fst, tr.snd.acts)
    | event :: _ => (set_timer (tv_sub event.trigger_time tv0) tr.fst, tr.snd.acts)

/-- `time_event_alloc` (lines 51-68): reuse the head of the free list when
possible, otherwise call `pc_malloc`.  `malloc_ok` models whether
`pc_malloc` returns a block; on failure the C code has no defined
continuation (assert or null dereference), modelled as `none`.  A freshly
allocated record's fields are indeterminate (the caller overwrites them
all); the model fills zeros. -/
def time_event_alloc (malloc_ok : Bool) (free : List Event) :
    Option (Event × List Event) :=
  match free with
  | [] => if malloc_ok then some (⟨none, 0, 0, 0, 0⟩, []) else none
  | e :: rest => some (e, rest)

/-- `add_time_event(tv, handler, private)` (lines 168-205): pend, sample
`now`, compute `trigger = now + tv`, obtain a record, populate it, index it
by context, insert it in trigger order, fire everything already due, and
resume (rearming) only when the state observed by the pend was ACTIVE or
EMPTY. -/
def add_time_event (res : Int) (malloc_ok : Bool) (tv : Int)
    (handler : Option Nat) (priv : Nat) (now : Int) (σ : TEQState) :
    Option (TEQState × List Act) :=
  let p := do_pend_event_queue σ
  let state := p.fst
  let σ1 := p.snd
  let trigger_tv := tv_add now tv
  match time_event_alloc malloc_ok σ1.free_event with
  | none => none
  | some (_, free1) =>
    let event : Event :=
      { handler := handler, priv := priv, start_time := now,
        trigger_time := trigger_tv, seq := σ1.nextSeq }
    let σ2 := { σ1 with
      free_event := free1,
      index := hash_map_64_add_member σ1.index priv event.seq,
      events := insert_in_order event σ1.events,
      nextSeq := σ1.nextSeq + 1 }
    let tr := do_trigger_time_event res now σ2
    if state = EVENT_QUEUE_ACTIVE ∨ state = EVENT_QUEUE_EMPTY then
      let r := do_resume_event_queue res (some now) now tr.fst
      some (r.fst, tr.snd.acts ++ Act.resumeCall (some now) :: r.snd)
    else
      some (tr.fst, tr.snd.acts)

/-- `remove_time_event(private)` (lines 207-229): pend, look the context up
in the index; if absent return at once.  Otherwise move the record to the
free list, delete the index entry, and either set the state to EMPTY (store
now empty) or resume with a `NULL` reference time.  `sample` models the
`gettimeofday` that the resume performs in the latter case. -/
def remove_time_event (res : Int) (sample : Int) (priv : Nat)
    (σ : TEQState) : TEQState × List Act :=
  let σ1 := (do_pend_event_queue σ).snd
  match hash_map_64_find_member σ1.index priv with
  | none => (σ1, [])
  | some sq =>
    match σ1.events.find? (fun e => e.seq = sq) with
    | none => (σ1, [])
    | some ev =>
      let σ2 := { σ1 with
        events := σ1.events.eraseP (fun e => e.seq = sq),
        free_event := ev :: σ1.free_event,
        index := hash_map_64_delete_member σ1.index priv }
      if σ2.events = [] then ({ σ2 with state := EVENT_QUEUE_EMPTY }, [])
      else
        let r := do_resume_event_queue res none sample σ2
        (r.fst, Act.resumeCall none :: r.snd)

/-- `trigger_time_event(signo)` (lines 231-255), the asynchronous timer
notification: pend; if the observed state was PENDING another processing
section owns the queue, so defer and return.  Otherwise sample `now`, fire
all due events, and either set the state to EMPTY (store empty) or resume
with `now − timer_resolution`. -/
def trigger_time_event (res : Int) (now : Int) (σ : TEQState) :
    TEQState × List Act :=
  let p := do_pend_event_queue σ
  if p.fst = EVENT_QUEUE_PENDING then (p.snd, [])
  else
    let tr := do_trigger_time_event res now p.snd
    if tr.fst.events = [] then
      ({ tr.fst with state := EVENT_QUEUE_EMPTY }, tr.snd.acts)
    else
      let r := do_resume_event_queue res (some (tv_sub now res)) now tr.fst
      (r.fst, tr.snd.acts ++ Act.resumeCall (some (tv_sub now res)) :: r.snd)

/-- `time_event_queue_init` (lines 257-282), restricted to the state it
creates: state EMPTY, no events, empty free list, zeroed one-shot value,
fresh index. -/
def time_event_queue_init : TEQState :=
  { state := EVENT_QUEUE_EMPTY, nr_event := 0, events := [], free_event := [],
    timer := 0, index := [], nextSeq := 0 }

/-- `pend_time_event_queue` (lines 309-315). -/
def pend_time_event_queue (σ : TEQState) : TEQState :=
  (do_pend_event_queue σ).snd

/-- `resume_time_event_queue` (lines 317-323); `sample` models the
`gettimeofday` performed because the reference time is `NULL`. -/
def resume_time_event_queue (res : Int) (sample : Int) (σ : TEQState) :
    TEQState × List Act :=
  do_resume_event_queue res none sample σ

/-- One `add_time_event` call of a schedule run: the delay argument, the
handler, the context, and the clock value `gettimeofday` returns during the
call. -/
structure SchedCall where
  delay : Int
  handler : Option Nat
  priv : Nat
  now : Int
deriving Repr, DecidableEq

/-- Run a sequence of `add_time_event` calls (with a never-failing backing
allocator), concatenating the action traces. -/
def runSchedules (res : Int) : List SchedCall → TEQState → Option (TEQState × List Act)
  | [], σ => some (σ, [])
  | c :: cs, σ =>
    match add_time_event res true c.delay c.handler c.priv c.now σ with
    | none => none
    | some (σ1, acts1) =>
      match runSchedules res cs σ1 with
      | none => none
      | some (σ2, acts2) => some (σ2, acts1 ++ acts2)

/-- Trigger times of the handler invocations of a trace, in firing order. -/
def firedTriggers (acts : List Act) : List Int :=
  acts.filterMap (fun a =>
    match a with
    | Act.invoke e _ _ => some e.trigger_time
    | _ => none)

/-- Number of `do_resume_event_queue` invocations recorded in a trace. -/
def resumeCalls (acts : List Act) : Nat :=
  (acts.filter (fun a =>
    match a with
    | Act.resumeCall _ => true
    | _ => false)).length

/-- Strict ordering on events: ascending trigger time, ties broken by
submission order (the ghost `seq`). -/
def evLT (a b : Event) : Prop :=
  a.trigger_time < b.trigger_time ∨
    (a.trigger_time = b.trigger_time ∧ a.seq < b.seq)

instance (a b : Event) : Decidable (evLT a b) := by
  unfold evLT; infer_instance

/-- Well-formedness carried by every reachable state: the event store is
sorted by `evLT` and every live submission tag is below the ghost supply. -/
def Inv (σ : TEQState) : Prop :=
  σ.events.Pairwise evLT ∧ ∀ e ∈ σ.events, e.seq < σ.nextSeq

/-- The context index has no duplicate keys (guaranteed by `hash_map_64` and
by the documented caller contract that outstanding contexts are unique). -/
def idxNodup (m : List (Nat × Nat)) : Prop :=
  (m.map Prod.fst).Nodup

/-- Reference trace of one firing-loop pass over a fired list: for each
fired event, first the index deletion, then the handler invocation (absent
for a `NULL` handler) against the already-updated index, then the recycling
of the record. -/
def traceOf (bound : Int) : List (Nat × Nat) → List Event → List Act
  | _, [] => []
  | idx, e :: rest =>
    let idx1 := hash_map_64_delete_member idx e.priv
    (Act.delIndex e.priv ::
        (match e.handler with
          | some _ => [Act.invoke e bound idx1]
          | none => []) ++ [Act.recycle e.seq]) ++ traceOf bound idx1 rest

/-! ### Association-list (context index) lemmas -/

theorem find_member_eq_none_iff {m : List (Nat × Nat)} {k : Nat} :
    hash_map_64_find_member m k = none ↔ ∀ kv ∈ m, kv.fst ≠ k := by
  simp [hash_map_64_find_member, List.find?_eq_none]

theorem delete_member_sublist (m : List (Nat × Nat)) (k : Nat) :
    List.Sublist (hash_map_64_delete_member m k) m :=
  List.eraseP_sublist m

theorem idxNodup_delete {m : List (Nat × Nat)} (k : Nat) (h : idxNodup m) :
    idxNodup (hash_map_64_delete_member m k) :=
  List.Nodup.sublist (List.Sublist.map Prod.fst (delete_member_sublist m k)) h

theorem find_member_none_of_sublist {m' m : List (Nat × Nat)} {k : Nat}
    (hsub : List.Sublist m' m) (h : hash_map_64_find_member m k = none) :
    hash_map_64_find_member m' k = none := by
  rw [find_member_eq_none_iff] at h ⊢
  exact fun kv hkv => h kv (hsub.subset hkv)

theorem find_member_delete_self {m : List (Nat × Nat)} {k : Nat}
    (h : idxNodup m) :
    hash_map_64_find_member (hash_map_64_delete_member m k) k = none := by
  induction m with
  | nil => rfl
  | cons kv rest ih =>
    rcases List.nodup_cons.mp h with ⟨hnotin, hrest⟩
    by_cases hk : kv.fst = k
    · have hdel : hash_map_64_delete_member (kv :: rest) k = rest := by
        simp [hash_map_64_delete_member, List.eraseP_cons, hk]
      rw [hdel, find_member_eq_none_iff]
      intro kv' hkv' hkk
      have hmem : kv'.fst ∈ rest.map Prod.fst := List.mem_map_of_mem Prod.fst hkv'
      rw [hkk, ← hk] at hmem
      exact hnotin hmem
    · have hdel : hash_map_64_delete_member (kv :: rest) k
          = kv :: hash_map_64_delete_member rest k := by
        simp [hash_map_64_delete_member, List.eraseP_cons, hk]
      rw [hdel]
      have htail := ih hrest
      simp only [hash_map_64_find_member, List.find?_cons] at htail ⊢
      simp only [hk, decide_False]
      exact htail

/-! ### Due test and event ordering lemmas -/

theorem is_due_iff {bound : Int} {e : Event} :
    is_due bound e = true ↔ e.trigger_time ≤ bound := by
  unfold is_due tv_cmp
  by_cases h1 : bound < e.trigger_time
  · rw [if_pos h1]
    constructor
    · intro hx; exact absurd hx (by decide)
    · intro hx; exact absurd hx (by omega)
  · by_cases h2 : bound = e.trigger_time
    · rw [if_neg h1, if_pos h2]
      constructor
      · intro _; omega
      · intro _; decide
    · rw [if_neg h1, if_neg h2]
      constructor
      · intro _; omega
      · intro _; decide

theorem tv_cmp_neg_iff {a b : Int} : tv_cmp a b = -1 ↔ a < b := by
  unfold tv_cmp
  by_cases h1 : a < b
  · rw [if_pos h1]; constructor <;> intro hx <;> omega
  · by_cases h2 : a = b
    · rw [if_neg h1, if_pos h2]; constructor <;> intro hx <;> omega
    · rw [if_neg h1, if_neg h2]; constructor <;> intro hx <;> omega

theorem tv_cmp_not_neg {a b : Int} (h : ¬tv_cmp a b = -1) : b ≤ a := by
  by_contra hlt
  exact h (tv_cmp_neg_iff.mpr (by omega))

theorem evLT_trigger_le {a b : Event} (h : evLT a b) :
    a.trigger_time ≤ b.trigger_time := by
  rcases h with h | ⟨h, -⟩
  · exact le_of_lt h
  · exact le_of_eq h

theorem sorted_takeWhile_eq_filter {l : List Event} (b : Int)
    (hp : l.Pairwise evLT) :
    l.takeWhile (is_due b) = l.filter (is_due b) := by
  induction l with
  | nil => rfl
  | cons e rest ih =>
    rcases List.pairwise_cons.mp hp with ⟨hhead, htail⟩
    by_cases hd : is_due b e = true
    · simp [List.takeWhile_cons, List.filter_cons, hd, ih htail]
    · have hnone : rest.filter (is_due b) = [] := by
        rw [List.filter_eq_nil_iff]
        intro x hx hxdue
        exact hd (is_due_iff.mpr
          (le_trans (evLT_trigger_le (hhead x hx)) (is_due_iff.mp hxdue)))
      simp [List.takeWhile_cons, List.filter_cons, hd, hnone]

theorem sorted_dropWhile_eq_filter {l : List Event} (b : Int)
    (hp : l.Pairwise evLT) :
    l.dropWhile (is_due b) = l.filter (fun e => !is_due b e) := by
  induction l with
  | nil => rfl
  | cons e rest ih =>
    rcases List.pairwise_cons.mp hp with ⟨hhead, htail⟩
    by_cases hd : is_due b e = true
    · have heq : rest.filter (fun x => !is_due b x) = rest.dropWhile (is_due b) :=
        (ih htail).symm
      simp [List.dropWhile_cons, List.filter_cons, hd, heq]
    · have hall : rest.filter (fun x => !is_due b x) = rest := by
        rw [List.filter_eq_self]
        intro x hx
        by_cases hxd : is_due b x = true
        · exfalso
          exact hd (is_due_iff.mpr
            (le_trans (evLT_trigger_le (hhead x hx)) (is_due_iff.mp hxd)))
        · simp only [Bool.not_eq_true] at hxd
          simp [hxd]
      simp [List.dropWhile_cons, List.filter_cons, hd, hall]

/-! ### Insertion lemmas -/

theorem mem_insert_in_order {a e : Event} {l : List Event} :
    a ∈ insert_in_order e l ↔ a = e ∨ a ∈ l := by
  induction l with
  | nil => simp [insert_in_order]
  | cons x xs ih =>
    by_cases hc : tv_cmp e.trigger_time x.trigger_time = -1
    · simp only [insert_in_order]
      rw [if_pos hc]
      simp
    · simp only [insert_in_order]
      rw [if_neg hc]
      simp [ih]
      tauto

theorem insert_in_order_pairwise {e : Event} {l : List Event}
    (hp : l.Pairwise evLT) (hfresh : ∀ x ∈ l, x.seq < e.seq) :
    (insert_in_order e l).Pairwise evLT := by
  induction l with
  | nil => simp [insert_in_order]
  | cons x xs ih =>
    rcases List.pairwise_cons.mp hp with ⟨hhead, htail⟩
    by_cases hc : tv_cmp e.trigger_time x.trigger_time = -1
    · simp only [insert_in_order]
      rw [if_pos hc]
      refine List.pairwise_cons.mpr ⟨?_, hp⟩
      intro y hy
      rcases List.mem_cons.mp hy with rfl | hy'
      · exact Or.inl (tv_cmp_neg_iff.mp hc)
      · exact Or.inl (lt_of_lt_of_le (tv_cmp_neg_iff.mp hc)
          (evLT_trigger_le (hhead y hy')))
    · have hxe : evLT x e := by
        have hle : x.trigger_time ≤ e.trigger_time := tv_cmp_not_neg hc
        rcases lt_or_eq_of_le hle with hlt | heq
        · exact Or.inl hlt
        · exact Or.inr ⟨heq, hfresh x (by simp)⟩
      simp only [insert_in_order]
      rw [if_neg hc]
      refine List.pairwise_cons.mpr ⟨?_, ih htail (fun y hy => hfresh y (by simp [hy]))⟩
      intro y hy
      rcases mem_insert_in_order.mp hy with hy | hy
      · exact hy ▸ hxe
      · exact hhead y hy

theorem count_insert_in_order (e : Event) (l : List Event) :
    (insert_in_order e l).count e = l.count e + 1 := by
  induction l with
  | nil => simp [insert_in_order]
  | cons x xs ih =>
    by_cases hc : tv_cmp e.trigger_time x.trigger_time = -1
    · simp only [insert_in_order]
      rw [if_pos hc, List.count_cons_self]
    · simp only [insert_in_order]
      rw [if_neg hc, List.count_cons, List.count_cons, ih]
      omega

theorem insert_takeWhile_mem {e : Event} {l : List Event} {bound : Int}
    (hdue : is_due bound e = true)
    (hskip : ∀ x ∈ l, ¬tv_cmp e.trigger_time x.trigger_time = -1 →
        is_due bound x = true) :
    e ∈ (insert_in_order e l).takeWhile (is_due bound) := by
  induction l with
  | nil => simp [insert_in_order, List.takeWhile_cons, hdue]
  | cons x xs ih =>
    by_cases hc : tv_cmp e.trigger_time x.trigger_time = -1
    · simp only [insert_in_order]
      rw [if_pos hc]
      simp [List.takeWhile_cons, hdue]
    · have hx : is_due bound x = true := hskip x (by simp) hc
      simp only [insert_in_order]
      rw [if_neg hc]
      rw [List.takeWhile_cons, if_pos hx]
      exact List.mem_cons_of_mem x (ih (fun y hy => hskip y (by simp [hy])))

/-! ### Firing-loop lemmas -/

theorem resumeCalls_append (a b : List Act) :
    resumeCalls (a ++ b) = resumeCalls a + resumeCalls b := by
  simp [resumeCalls, List.filter_append]

theorem resumeCalls_nil : resumeCalls [] = 0 := rfl

theorem resumeCalls_delIndex_cons (p : Nat) (l : List Act) :
    resumeCalls (Act.delIndex p :: l) = resumeCalls l := by
  simp [resumeCalls]

theorem resumeCalls_invoke_cons (e : Event) (t : Int) (m : List (Nat × Nat))
    (l : List Act) :
    resumeCalls (Act.invoke e t m :: l) = resumeCalls l := by
  simp [resumeCalls]

theorem resumeCalls_recycle_cons (sq : Nat) (l : List Act) :
    resumeCalls (Act.recycle sq :: l) = resumeCalls l := by
  simp [resumeCalls]

theorem resumeCalls_resumeCall_cons (r : Option Int) (l : List Act) :
    resumeCalls (Act.resumeCall r :: l) = resumeCalls l + 1 := by
  simp [resumeCalls, Nat.add_comm]

theorem triggerLoop_events (b : Int) (l : List Event) (idx : List (Nat × Nat))
    (fr : List Event) :
    (triggerLoop b l idx fr).events = l.dropWhile (is_due b) := by
  induction l generalizing idx fr with
  | nil => rfl
  | cons e rest ih =>
    by_cases hd : is_due b e = true
    · simp only [triggerLoop]
      rw [if_pos hd, List.dropWhile_cons, if_pos hd]
      exact ih _ _
    · simp only [triggerLoop]
      rw [if_neg hd, List.dropWhile_cons, if_neg hd]

theorem triggerLoop_fired (b : Int) (l : List Event) (idx : List (Nat × Nat))
    (fr : List Event) :
    (triggerLoop b l idx fr).fired = l.takeWhile (is_due b) := by
  induction l generalizing idx fr with
  | nil => rfl
  | cons e rest ih =>
    by_cases hd : is_due b e = true
    · simp only [triggerLoop]
      rw [if_pos hd, List.takeWhile_cons, if_pos hd]
      simp [ih]
    · simp only [triggerLoop]
      rw [if_neg hd, List.takeWhile_cons, if_neg hd]

theorem triggerLoop_free (b : Int) (l : List Event) (idx : List (Nat × Nat))
    (fr : List Event) :
    (triggerLoop b l idx fr).free = (l.takeWhile (is_due b)).reverse ++ fr := by
  induction l generalizing idx fr with
  | nil => rfl
  | cons e rest ih =>
    by_cases hd : is_due b e = true
    · simp only [triggerLoop]
      rw [if_pos hd, List.takeWhile_cons, if_pos hd]
      simp [ih]
    · simp only [triggerLoop]
      rw [if_neg hd, List.takeWhile_cons, if_neg hd]
      rfl

theorem triggerLoop_index_sublist (b : Int) (l : List Event)
    (idx : List (Nat × Nat)) (fr : List Event) :
    List.Sublist (triggerLoop b l idx fr).index idx := by
  induction l generalizing idx fr with
  | nil => exact List.Sublist.refl _
  | cons e rest ih =>
    by_cases hd : is_due b e = true
    · simp only [triggerLoop]
      rw [if_pos hd]
      exact List.Sublist.trans (ih _ _) (delete_member_sublist idx e.priv)
    · simp only [triggerLoop]
      rw [if_neg hd]

theorem triggerLoop_resumeCalls (b : Int) (l : List Event)
    (idx : List (Nat × Nat)) (fr : List Event) :
    resumeCalls (triggerLoop b l idx fr).acts = 0 := by
  induction l generalizing idx fr with
  | nil => rfl
  | cons e rest ih =>
    by_cases hd : is_due b e = true
    · simp only [triggerLoop]
      rw [if_pos hd]
      cases hh : e.handler <;>
        simp [hh, List.cons_append, resumeCalls_append, resumeCalls_nil,
          resumeCalls_delIndex_cons, resumeCalls_invoke_cons,
          resumeCalls_recycle_cons, ih]
    · simp only [triggerLoop]
      rw [if_neg hd]
      rfl

theorem triggerLoop_invoke_mem {b : Int} {l : List Event}
    {idx : List (Nat × Nat)} {fr : List Event} {f : Event} {t : Int}
    {m : List (Nat × Nat)} (hn : idxNodup idx)
    (hmem : Act.invoke f t m ∈ (triggerLoop b l idx fr).acts) :
    t = b ∧ (∃ hh, f.handler = some hh) ∧
      hash_map_64_find_member m f.priv = none := by
  induction l generalizing idx fr with
  | nil => exact absurd hmem (by simp [triggerLoop])
  | cons e rest ih =>
    by_cases hd : is_due b e = true
    · simp only [triggerLoop] at hmem
      rw [if_pos hd] at hmem
      simp only [List.cons_append, List.mem_cons, List.mem_append] at hmem
      rcases hmem with hmem | hmem
      · exact absurd hmem (by simp)
      rcases hmem with hmem | hmem
      · cases hh : e.handler with
        | none => rw [hh] at hmem; exact absurd hmem (by simp)
        | some hv =>
          rw [hh] at hmem
          simp only [List.mem_append, List.mem_singleton] at hmem
          rcases hmem with hmem | hmem
          · injection hmem with h1 h2 h3
            subst h1; subst h2; subst h3
            exact ⟨rfl, ⟨hv, hh⟩, find_member_delete_self hn⟩
          · exact absurd hmem (by simp)
      · exact ih (idxNodup_delete e.priv hn) hmem
    · simp only [triggerLoop] at hmem
      rw [if_neg hd] at hmem
      exact absurd hmem (by simp)

theorem triggerLoop_fired_find_none {b : Int} {l : List Event}
    {idx : List (Nat × Nat)} {fr : List Event} (hn : idxNodup idx) :
    ∀ f ∈ (triggerLoop b l idx fr).fired,
      hash_map_64_find_member (triggerLoop b l idx fr).index f.priv = none := by
  induction l generalizing idx fr with
  | nil => simp [triggerLoop]
  | cons e rest ih =>
    by_cases hd : is_due b e = true
    · intro f hf
      simp only [triggerLoop] at hf ⊢
      rw [if_pos hd] at hf ⊢
      simp only [List.mem_cons] at hf
      rcases hf with rfl | hf
      · exact find_member_none_of_sublist
          (triggerLoop_index_sublist b rest _ _)
          (find_member_delete_self hn)
      · exact ih (idxNodup_delete e.priv hn) f hf
    · intro f hf
      simp only [triggerLoop] at hf
      rw [if_neg hd] at hf
      exact absurd hf (by simp)

theorem triggerLoop_invoke_exists {b : Int} {l : List Event}
    {idx : List (Nat × Nat)} {fr : List Event} {f : Event} {hh : Nat}
    (hmem : f ∈ (triggerLoop b l idx fr).fired) (hhand : f.handler = some hh) :
    ∃ m, Act.invoke f b m ∈ (triggerLoop b l idx fr).acts := by
  induction l generalizing idx fr with
  | nil => exact absurd hmem (by simp [triggerLoop])
  | cons e rest ih =>
    by_cases hd : is_due b e = true
    · simp only [triggerLoop] at hmem ⊢
      rw [if_pos hd] at hmem ⊢
      simp only [List.mem_cons] at hmem
      rcases hmem with rfl | hmem
      · refine ⟨hash_map_64_delete_member idx f.priv, ?_⟩
        rw [hhand]
        simp
      · rcases ih hmem with ⟨m, hm⟩
        refine ⟨m, ?_⟩
        simp only [List.cons_append, List.mem_cons, List.mem_append]
        right; right
        exact hm
    · simp only [triggerLoop] at hmem
      rw [if_neg hd] at hmem
      exact absurd hmem (by simp)

theorem triggerLoop_acts_eq (b : Int) (l : List Event)
    (idx : List (Nat × Nat)) (fr : List Event) :
    (triggerLoop b l idx fr).acts = traceOf b idx (l.takeWhile (is_due b)) := by
  induction l generalizing idx fr with
  | nil => rfl
  | cons e rest ih =>
    by_cases hd : is_due b e = true
    · simp only [triggerLoop]
      rw [if_pos hd, List.takeWhile_cons, if_pos hd]
      simp only [traceOf, ih]
    · simp only [triggerLoop]
      rw [if_neg hd, List.takeWhile_cons, if_neg hd]
      rfl

/-! ### Projection lemmas for `do_trigger_time_event` -/

theorem do_trigger_snd (res now : Int) (σ : TEQState) :
    (do_trigger_time_event res now σ).snd =
      triggerLoop (tv_add now res) σ.events σ.index σ.free_event := rfl

theorem do_trigger_fst_events (res now : Int) (σ : TEQState) :
    (do_trigger_time_event res now σ).fst.events =
      σ.events.dropWhile (is_due (tv_add now res)) := by
  simp [do_trigger_time_event, triggerLoop_events]

theorem do_trigger_fst_free (res now : Int) (σ : TEQState) :
    (do_trigger_time_event res now σ).fst.free_event =
      (σ.events.takeWhile (is_due (tv_add now res))).reverse ++ σ.free_event := by
  simp [do_trigger_time_event, triggerLoop_free]

theorem do_trigger_fst_state (res now : Int) (σ : TEQState) :
    (do_trigger_time_event res now σ).fst.state = σ.state := rfl

theorem do_trigger_fst_timer (res now : Int) (σ : TEQState) :
    (do_trigger_time_event res now σ).fst.timer = σ.timer := rfl

theorem do_trigger_fst_nextSeq (res now : Int) (σ : TEQState) :
    (do_trigger_time_event res now σ).fst.nextSeq = σ.nextSeq := rfl

theorem do_trigger_fst_index (res now : Int) (σ : TEQState) :
    (do_trigger_time_event res now σ).fst.index =
      (triggerLoop (tv_add now res) σ.events σ.index σ.free_event).index := rfl

/-! ### Pend lemmas -/

theorem do_pend_fst (σ : TEQState) : (do_pend_event_queue σ).fst = σ.state := by
  unfold do_pend_event_queue sync_set set_timer
  by_cases h : σ.state = EVENT_QUEUE_PENDING <;> simp [h]

theorem do_pend_snd (σ : TEQState) :
    (do_pend_event_queue σ).snd =
      if σ.state = EVENT_QUEUE_PENDING
      then { σ with state := EVENT_QUEUE_PENDING }
      else { σ with state := EVENT_QUEUE_PENDING, timer := 0 } := by
  unfold do_pend_event_queue sync_set set_timer
  by_cases h : σ.state = EVENT_QUEUE_PENDING <;> simp [h]

theorem do_pend_snd_events (σ : TEQState) :
    (do_pend_event_queue σ).snd.events = σ.events := by
  rw [do_pend_snd]; split <;> rfl

theorem do_pend_snd_free (σ : TEQState) :
    (do_pend_event_queue σ).snd.free_event = σ.free_event := by
  rw [do_pend_snd]; split <;> rfl

theorem do_pend_snd_index (σ : TEQState) :
    (do_pend_event_queue σ).snd.index = σ.index := by
  rw [do_pend_snd]; split <;> rfl

theorem do_pend_snd_nextSeq (σ : TEQState) :
    (do_pend_event_queue σ).snd.nextSeq = σ.nextSeq := by
  rw [do_pend_snd]; split <;> rfl

theorem do_pend_snd_state (σ : TEQState) :
    (do_pend_event_queue σ).snd.state = EVENT_QUEUE_PENDING := by
  rw [do_pend_snd]; split <;> rfl

theorem do_pend_snd_timer (σ : TEQState) :
    (do_pend_event_queue σ).snd.timer =
      if σ.state = EVENT_QUEUE_PENDING then σ.timer else 0 := by
  rw [do_pend_snd]; split <;> simp_all

/-! ### A total description of `add_time_event` under a succeeding allocator -/

/-- The state and trace `add_time_event` produces when the backing allocator
does not fail (`time_event_alloc` then always returns a record: the head of
the free list, or a fresh block whose fields are entirely overwritten, so
only `List.tail` of the free list matters). -/
def add_time_event_run (res tv : Int) (handler : Option Nat) (priv : Nat)
    (now : Int) (σ : TEQState) : TEQState × List Act :=
  let p := do_pend_event_queue σ
  let state := p.fst
  let σ1 := p.snd
  let trigger_tv := tv_add now tv
  let event : Event :=
    { handler := handler, priv := priv, start_time := now,
      trigger_time := trigger_tv, seq := σ1.nextSeq }
  let σ2 := { σ1 with
    free_event := σ1.free_event.tail,
    index := hash_map_64_add_member σ1.index priv event.seq,
    events := insert_in_order event σ1.events,
    nextSeq := σ1.nextSeq + 1 }
  let tr := do_trigger_time_event res now σ2
  if state = EVENT_QUEUE_ACTIVE ∨ state = EVENT_QUEUE_EMPTY then
    let r := do_resume_event_queue res (some now) now tr.fst
    (r.fst, tr.snd.acts ++ Act.resumeCall (some now) :: r.snd)
  else
    (tr.fst, tr.snd.acts)

theorem add_time_event_true_eq (res tv : Int) (handler : Option Nat)
    (priv : Nat) (now : Int) (σ : TEQState) :
    add_time_event res true tv handler priv now σ =
      some (add_time_event_run res tv handler priv now σ) := by
  unfold add_time_event add_time_event_run time_event_alloc
  cases hfe : (do_pend_event_queue σ).snd.free_event with
  | nil => simp [hfe]; split <;> rfl
  | cons e r => simp [hfe]; split <;> rfl

/-! ### Preservation of the well-formedness invariant -/

theorem Inv_init : Inv time_event_queue_init := by
  constructor
  · exact List.Pairwise.nil
  · intro e he
    cases he

theorem Inv_set_timer (t : Int) (σ : TEQState) (h : Inv σ) :
    Inv (set_timer t σ) := ⟨h.1, h.2⟩

theorem Inv_pend (σ : TEQState) (h : Inv σ) :
    Inv (do_pend_event_queue σ).snd := by
  constructor
  · rw [do_pend_snd_events]; exact h.1
  · rw [do_pend_snd_nextSeq]
    intro e he
    rw [do_pend_snd_events] at he
    exact h.2 e he

theorem Inv_do_trigger (res now : Int) (σ : TEQState) (h : Inv σ) :
    Inv (do_trigger_time_event res now σ).fst := by
  constructor
  · rw [do_trigger_fst_events]
    exact List.Pairwise.sublist (List.dropWhile_sublist _) h.1
  · rw [do_trigger_fst_nextSeq]
    intro e he
    rw [do_trigger_fst_events] at he
    exact h.2 e ((List.dropWhile_sublist _).mem he)

theorem Inv_do_resume (res : Int) (now : Option Int) (sample : Int)
    (σ : TEQState) (h : Inv σ) :
    Inv (do_resume_event_queue res now sample σ).fst := by
  have h2 : Inv { σ with state := EVENT_QUEUE_ACTIVE } := ⟨h.1, h.2⟩
  simp only [do_resume_event_queue, sync_set]
  split
  · exact h2
  · split
    · exact Inv_do_trigger _ _ _ h2
    · exact Inv_set_timer _ _ (Inv_do_trigger _ _ _ h2)

theorem Inv_add_run (res tv : Int) (handler : Option Nat) (priv : Nat)
    (now : Int) (σ : TEQState) (h : Inv σ) :
    Inv (add_time_event_run res tv handler priv now σ).fst := by
  have h1 : Inv (do_pend_event_queue σ).snd := Inv_pend σ h
  simp only [add_time_event_run]
  have h2 : Inv { (do_pend_event_queue σ).snd with
      free_event := (do_pend_event_queue σ).snd.free_event.tail,
      index := hash_map_64_add_member (do_pend_event_queue σ).snd.index priv
        (do_pend_event_queue σ).snd.nextSeq,
      events := insert_in_order
        { handler := handler, priv := priv, start_time := now,
          trigger_time := tv_add now tv,
          seq := (do_pend_event_queue σ).snd.nextSeq }
        (do_pend_event_queue σ).snd.events,
      nextSeq := (do_pend_event_queue σ).snd.nextSeq + 1 } := by
    constructor
    · exact insert_in_order_pairwise h1.1 (fun x hx => h1.2 x hx)
    · intro e he
      rcases mem_insert_in_order.mp he with rfl | he
      · exact Nat.lt_succ_self _
      · exact Nat.lt_succ_of_lt (h1.2 e he)
  split
  · exact Inv_do_resume _ _ _ _ (Inv_do_trigger _ _ _ h2)
  · exact Inv_do_trigger _ _ _ h2

theorem Inv_run (res : Int) (calls : List SchedCall) (σ : TEQState)
    (h : Inv σ) :
    ∀ σ' acts, runSchedules res calls σ = some (σ', acts) → Inv σ' := by
  induction calls generalizing σ with
  | nil =>
    intro σ' acts heq
    simp only [runSchedules] at heq
    cases heq
    exact h
  | cons c cs ih =>
    intro σ' acts heq
    simp only [runSchedules, add_time_event_true_eq] at heq
    cases hrun : runSchedules res cs (add_time_event_run res c.delay c.handler c.priv c.now σ).fst with
    | none => rw [hrun] at heq; cases heq
    | some v =>
      rw [hrun] at heq
      cases heq
      exact ih _ (Inv_add_run _ _ _ _ _ _ h) v.fst v.snd (by rw [hrun])

/-! ### More dispatcher lemmas -/

theorem do_trigger_resumeCalls (res now : Int) (σ : TEQState) :
    resumeCalls (do_trigger_time_event res now σ).snd.acts = 0 := by
  rw [do_trigger_snd]
  exact triggerLoop_resumeCalls _ _ _ _

theorem do_resume_snd_resumeCalls (res : Int) (now : Option Int) (sample : Int)
    (σ : TEQState) :
    resumeCalls (do_resume_event_queue res now sample σ).snd = 0 := by
  simp only [do_resume_event_queue, sync_set]
  split
  · rfl
  · split
    · exact do_trigger_resumeCalls _ _ _
    · exact do_trigger_resumeCalls _ _ _

theorem remove_time_event_unknown (res sample : Int) (c : Nat) (σ : TEQState)
    (habs : hash_map_64_find_member σ.index c = none) :
    remove_time_event res sample c σ = ((do_pend_event_queue σ).snd, []) := by
  simp only [remove_time_event, do_pend_snd_index, habs]

/-! ### Claim theorems -/

/-- C7: when the free list is empty and `pc_malloc` fails, `add_time_event`
reaches no recoverable-error path: the model's `none` stands for the C
code's undefined continuation (an `assert` abort under `USE_ASSERT`, a null
dereference of `event->start_time = now` otherwise) — nothing is ever
reported back to the `schedule` caller, whose `add_time_event` returns
`void`.  This contradicts the spec's requirement of a recoverable error. -/
theorem C7_alloc_failure_no_error_path (res tv : Int) (handler : Option Nat)
    (priv : Nat) (now : Int) (σ : TEQState) (hfree : σ.free_event = []) :
    add_time_event res false tv handler priv now σ = none := by
  simp [add_time_event, time_event_alloc, do_pend_snd_free, hfree]

/-- C7 witness: the failing input evaluated concretely from the initial
state (whose free list is empty). -/
theorem C7_alloc_failure_witness :
    add_time_event 1000 false 5000 (some 1) 7 0 time_event_queue_init = none :=
  C7_alloc_failure_no_error_path 1000 5000 (some 1) 7 0 time_event_queue_init rfl

/-- C10: `remove_time_event` on a context with no index entry returns from
inside its pend bracket without resuming: the whole result state equals the
input with only the queue state forced to PENDING and the timer disarmed
(the hypothesis `hinv` is the pend-protocol invariant that a queue already
PENDING already has its timer disarmed), and the trace is empty (no handler
fired, no resume). -/
theorem C10_cancel_unknown_leaves_pending (res sample : Int) (c : Nat)
    (σ : TEQState)
    (habs : hash_map_64_find_member σ.index c = none)
    (hinv : σ.state = EVENT_QUEUE_PENDING → σ.timer = 0) :
    remove_time_event res sample c σ =
      ({ σ with state := EVENT_QUEUE_PENDING, timer := 0 }, []) := by
  rw [remove_time_event_unknown res sample c σ habs, do_pend_snd]
  by_cases hst : σ.state = EVENT_QUEUE_PENDING
  · rw [if_pos hst]
    have ht := hinv hst
    cases σ
    simp_all
  · rw [if_neg hst]

/-- C10 witness: a concrete ACTIVE state with an armed timer and an unknown
context. -/
theorem C10_cancel_unknown_witness :
    remove_time_event 10 20 5
        { state := 2, nr_event := 0, events := [], free_event := [],
          timer := 55, index := [], nextSeq := 0 } =
      ({ state := 1, nr_event := 0, events := [], free_event := [],
          timer := 0, index := [], nextSeq := 0 }, []) :=
  C10_cancel_unknown_leaves_pending 10 20 5 _ rfl (by decide)

/-- C6 counterexample states: schedule one event for context 7 (with a delay
beyond the coalescing window so it stays pending), cancel it (the store
empties, the state collapses to EMPTY), then cancel the same context again. -/
def c6_sigma1 : TEQState :=
  ((add_time_event 1000 true 5000 (some 1) 7 0 time_event_queue_init).getD
    (time_event_queue_init, [])).fst

/-- C6 counterexample: state after the first cancel of context 7. -/
def c6_sigma2 : TEQState := (remove_time_event 1000 20 7 c6_sigma1).fst

/-- C6 counterexample: state after the second cancel of context 7. -/
def c6_sigma3 : TEQState := (remove_time_event 1000 30 7 c6_sigma2).fst

/-- C6 counterexample: the second `cancel` of an already-canceled context is
not observationally neutral — the first cancel left the queue state EMPTY,
and the second swaps it to PENDING (and the resulting states differ), so
"the second call has no observable effect on the scheduler's state" is false
as stated. -/
theorem C6_counterexample :
    c6_sigma2.state = EVENT_QUEUE_EMPTY ∧
    c6_sigma3.state = EVENT_QUEUE_PENDING ∧
    c6_sigma3 ≠ c6_sigma2 := by decide

/-- C6 (amended): cancel on a context with no outstanding event is a safe
silent no-op on the event store, the free list and the context index — in
particular a second cancel of an already-canceled context fires no handler
and performs no resume — but it does run the pend half of the bracket, so it
leaves the queue state PENDING and (unless the queue was already PENDING)
disarms the timer, which is observable. -/
theorem C6_amended_cancel_idempotent (res sample : Int) (c : Nat)
    (σ : TEQState) (habs : hash_map_64_find_member σ.index c = none) :
    (remove_time_event res sample c σ).fst.events = σ.events ∧
    (remove_time_event res sample c σ).fst.free_event = σ.free_event ∧
    (remove_time_event res sample c σ).fst.index = σ.index ∧
    (remove_time_event res sample c σ).snd = [] ∧
    (remove_time_event res sample c σ).fst.state = EVENT_QUEUE_PENDING ∧
    (¬σ.state = EVENT_QUEUE_PENDING →
      (remove_time_event res sample c σ).fst.timer = 0) ∧
    (σ.state = EVENT_QUEUE_PENDING →
      (remove_time_event res sample c σ).fst.timer = σ.timer) := by
  rw [remove_time_event_unknown res sample c σ habs]
  refine ⟨do_pend_snd_events σ, do_pend_snd_free σ, do_pend_snd_index σ, rfl,
    do_pend_snd_state σ, ?_, ?_⟩
  · intro h
    rw [do_pend_snd_timer, if_neg h]
  · intro h
    rw [do_pend_snd_timer, if_pos h]

/-- C6 witness: the amended statement applied to the concrete
already-canceled state of the counterexample (context 7 is absent from
`c6_sigma2`). -/
theorem C6_amended_witness :
    (remove_time_event 1000 30 7 c6_sigma2).fst.events = c6_sigma2.events ∧
    (remove_time_event 1000 30 7 c6_sigma2).fst.free_event = c6_sigma2.free_event ∧
    (remove_time_event 1000 30 7 c6_sigma2).fst.index = c6_sigma2.index ∧
    (remove_time_event 1000 30 7 c6_sigma2).snd = [] ∧
    (remove_time_event 1000 30 7 c6_sigma2).fst.state = EVENT_QUEUE_PENDING ∧
    (¬c6_sigma2.state = EVENT_QUEUE_PENDING →
      (remove_time_event 1000 30 7 c6_sigma2).fst.timer = 0) ∧
    (c6_sigma2.state = EVENT_QUEUE_PENDING →
      (remove_time_event 1000 30 7 c6_sigma2).fst.timer = c6_sigma2.timer) :=
  C6_amended_cancel_idempotent 1000 30 7 c6_sigma2 (by decide)

/-- C3: `add_time_event` resumes (rearming) exactly once, with the sampled
`now` as reference time, when the state observed by its initial pend was
ACTIVE or EMPTY, and performs no resume at all when the observed state was
PENDING (nested inside an outer pend/resume bracket, which will rearm once
when it completes). -/
theorem C3_schedule_resume_once (res tv : Int) (handler : Option Nat)
    (priv : Nat) (now : Int) (σ σ' : TEQState) (acts : List Act)
    (heq : add_time_event res true tv handler priv now σ = some (σ', acts)) :
    ((σ.state = EVENT_QUEUE_ACTIVE ∨ σ.state = EVENT_QUEUE_EMPTY) →
      resumeCalls acts = 1 ∧ Act.resumeCall (some now) ∈ acts) ∧
    (σ.state = EVENT_QUEUE_PENDING → resumeCalls acts = 0) := by
  rw [add_time_event_true_eq] at heq
  injection heq with heq
  have hacts : acts = (add_time_event_run res tv handler priv now σ).snd := by
    rw [heq]
  subst hacts
  simp only [add_time_event_run]
  constructor
  · intro hcase
    have hc : (do_pend_event_queue σ).fst = EVENT_QUEUE_ACTIVE ∨
        (do_pend_event_queue σ).fst = EVENT_QUEUE_EMPTY := by
      rw [do_pend_fst]; exact hcase
    rw [if_pos hc]
    constructor
    · rw [resumeCalls_append, resumeCalls_resumeCall_cons,
        do_trigger_resumeCalls, do_resume_snd_resumeCalls]
    · exact List.mem_append_right _ (List.mem_cons_self _ _)
  · intro hpend
    have hc : ¬((do_pend_event_queue σ).fst = EVENT_QUEUE_ACTIVE ∨
        (do_pend_event_queue σ).fst = EVENT_QUEUE_EMPTY) := by
      rw [do_pend_fst, hpend]
      decide
    rw [if_neg hc]
    exact do_trigger_resumeCalls _ _ _

/-- C3 witness: the concrete run of `add_time_event` from the EMPTY initial
state. -/
def c3_run : TEQState × List Act :=
  add_time_event_run 1000 5000 (some 3) 9 0 time_event_queue_init

/-- C3 witness: from the EMPTY initial state, the schedule call performs
exactly one resume, with the sampled `now` as reference. -/
theorem C3_schedule_resume_once_witness :
    resumeCalls c3_run.snd = 1 ∧ Act.resumeCall (some 0) ∈ c3_run.snd :=
  (C3_schedule_resume_once 1000 5000 (some 3) 9 0 time_event_queue_init
    c3_run.fst c3_run.snd (by rw [add_time_event_true_eq]; rfl)).1 (Or.inr rfl)

/-- C2: on a sorted store with duplicate-free index, one pass of
`do_trigger_time_event` (the `pop_due` of the spec) removes and fires, in
ascending store order, exactly the events whose `trigger_time` is at most
`reference_time + timer_resolution`; every handler invocation happens
against an index from which the fired event's context is already deleted;
the fired records end up on the free list (most recently fired first) while
later events stay untouched in order; and the action trace is, per fired
event, index deletion, then the optional handler call, then recycling. -/
theorem C2_pop_due (res now : Int) (σ : TEQState)
    (hs : σ.events.Pairwise evLT) (hk : idxNodup σ.index) :
    (do_trigger_time_event res now σ).snd.fired =
        σ.events.filter (is_due (tv_add now res)) ∧
    (do_trigger_time_event res now σ).snd.fired.Pairwise evLT ∧
    (do_trigger_time_event res now σ).fst.events =
        σ.events.filter (fun e => !is_due (tv_add now res) e) ∧
    (do_trigger_time_event res now σ).fst.free_event =
        ((do_trigger_time_event res now σ).snd.fired).reverse ++ σ.free_event ∧
    (∀ f t m, Act.invoke f t m ∈ (do_trigger_time_event res now σ).snd.acts →
        hash_map_64_find_member m f.priv = none) ∧
    (∀ f ∈ (do_trigger_time_event res now σ).snd.fired,
        hash_map_64_find_member ((do_trigger_time_event res now σ).fst.index)
          f.priv = none) ∧
    (do_trigger_time_event res now σ).snd.acts =
        traceOf (tv_add now res) σ.index
          (do_trigger_time_event res now σ).snd.fired := by
  refine ⟨?_, ?_, ?_, ?_, ?_, ?_, ?_⟩
  · rw [do_trigger_snd, triggerLoop_fired, sorted_takeWhile_eq_filter _ hs]
  · rw [do_trigger_snd, triggerLoop_fired]
    exact List.Pairwise.sublist (List.takeWhile_sublist _) hs
  · rw [do_trigger_fst_events, sorted_dropWhile_eq_filter _ hs]
  · rw [do_trigger_fst_free, do_trigger_snd, triggerLoop_fired]
  · intro f t m hm
    rw [do_trigger_snd] at hm
    exact (triggerLoop_invoke_mem hk hm).2.2
  · intro f hf
    rw [do_trigger_snd] at hf
    rw [do_trigger_fst_index]
    exact triggerLoop_fired_find_none hk f hf
  · rw [do_trigger_snd, triggerLoop_acts_eq, triggerLoop_fired]

/-- C2 witness event: due at the concrete reference time, context 3. -/
def c2_event : Event := ⟨some 5, 3, 0, 50, 0⟩

/-- C2 witness input: one due event for context 3, indexed. -/
def c2_sigma : TEQState :=
  { state := 1, nr_event := 0, events := [c2_event],
    free_event := [], timer := 0, index := [(3, 0)], nextSeq := 1 }

/-- C2 witness: a concrete pop fires exactly the due event and its context
is deleted from the index. -/
theorem C2_pop_due_witness :
    (do_trigger_time_event 100 0 c2_sigma).snd.fired =
        c2_sigma.events.filter (is_due (tv_add 0 100)) ∧
    hash_map_64_find_member ((do_trigger_time_event 100 0 c2_sigma).fst.index)
        3 = none := by
  have h := C2_pop_due 100 0 c2_sigma (by simp [c2_sigma])
    (by simp [idxNodup, c2_sigma])
  refine ⟨h.1, ?_⟩
  have hm : c2_event ∈ (do_trigger_time_event 100 0 c2_sigma).snd.fired := by
    rw [h.1]
    decide
  exact h.2.2.2.2.2.1 _ hm

/-- C9: a due event whose handler is `NULL` is a legal no-op when fired: it
is popped like any other (no handler invocation appears in the trace), it is
removed from the store, its context is no longer findable in the index, and
its record is recycled onto the free list. -/
theorem C9_null_handler_noop (res now : Int) (σ : TEQState)
    (hs : σ.events.Pairwise evLT) (hk : idxNodup σ.index) (e : Event)
    (he : e ∈ σ.events) (hh : e.handler = none)
    (hd : is_due (tv_add now res) e = true) :
    e ∈ (do_trigger_time_event res now σ).snd.fired ∧
    (∀ t m, Act.invoke e t m ∉ (do_trigger_time_event res now σ).snd.acts) ∧
    e ∉ (do_trigger_time_event res now σ).fst.events ∧
    e ∈ (do_trigger_time_event res now σ).fst.free_event ∧
    hash_map_64_find_member ((do_trigger_time_event res now σ).fst.index)
      e.priv = none := by
  have htw : e ∈ σ.events.takeWhile (is_due (tv_add now res)) := by
    rw [sorted_takeWhile_eq_filter _ hs]
    exact List.mem_filter.mpr ⟨he, hd⟩
  have hfired : e ∈ (do_trigger_time_event res now σ).snd.fired := by
    rw [do_trigger_snd, triggerLoop_fired]
    exact htw
  refine ⟨hfired, ?_, ?_, ?_, ?_⟩
  · intro t m hm
    rw [do_trigger_snd] at hm
    rcases (triggerLoop_invoke_mem hk hm).2.1 with ⟨hv, hsome⟩
    rw [hh] at hsome
    cases hsome
  · intro hmem
    rw [do_trigger_fst_events, sorted_dropWhile_eq_filter _ hs] at hmem
    have := (List.mem_filter.mp hmem).2
    rw [hd] at this
    cases this
  · rw [do_trigger_fst_free]
    exact List.mem_append_left _ (List.mem_reverse.mpr htw)
  · rw [do_trigger_fst_index]
    rw [do_trigger_snd] at hfired
    exact triggerLoop_fired_find_none hk e hfired

/-- C9 witness event: due, `NULL` handler, context 4. -/
def c9_event : Event := ⟨none, 4, 0, 10, 0⟩

/-- C9 witness input: one due `NULL`-handler event for context 4. -/
def c9_sigma : TEQState :=
  { state := 1, nr_event := 0, events := [c9_event],
    free_event := [], timer := 0, index := [(4, 0)], nextSeq := 1 }

/-- C9 witness: the concrete `NULL`-handler event is popped, recycled and
unindexed. -/
theorem C9_null_handler_witness :
    c9_event ∈ (do_trigger_time_event 100 0 c9_sigma).fst.free_event ∧
    hash_map_64_find_member ((do_trigger_time_event 100 0 c9_sigma).fst.index)
        4 = none := by
  have h := C9_null_handler_noop 100 0 c9_sigma (by simp [c9_sigma])
    (by simp [idxNodup, c9_sigma]) c9_event (by decide) rfl (by decide)
  exact ⟨h.2.2.2.1, h.2.2.2.2⟩

/-! ### Resume lemmas -/

theorem do_resume_fst_state (res : Int) (now : Option Int) (sample : Int)
    (σ : TEQState) :
    (do_resume_event_queue res now sample σ).fst.state = EVENT_QUEUE_ACTIVE := by
  simp only [do_resume_event_queue, sync_set]
  split
  · rfl
  · split
    · rw [do_trigger_fst_state]
    · simp only [set_timer]
      rw [do_trigger_fst_state]

/-- C5: `do_resume_event_queue` swaps the state to ACTIVE and, when the
previous state was already ACTIVE, does nothing else; an absent reference
time means the sampled current time is used; otherwise it fires all
already-due events (those within `reference + timer_resolution`), leaves the
timer untouched (so nothing newly armed) when the store drains empty, and
arms the one-shot timer for `earliest trigger_time − reference_time` when
events remain. -/
theorem C5_resume_semantics (res : Int) (ref : Option Int) (sample : Int)
    (σ : TEQState) (hs : σ.events.Pairwise evLT) :
    (σ.state = EVENT_QUEUE_ACTIVE →
      do_resume_event_queue res ref sample σ = (σ, [])) ∧
    (do_resume_event_queue res none sample σ =
      do_resume_event_queue res (some sample) sample σ) ∧
    (¬σ.state = EVENT_QUEUE_ACTIVE →
      (do_resume_event_queue res ref sample σ).fst.events =
          σ.events.filter
            (fun e => !is_due (tv_add (ref.getD sample) res) e) ∧
      (do_resume_event_queue res ref sample σ).fst.state =
          EVENT_QUEUE_ACTIVE ∧
      ((do_resume_event_queue res ref sample σ).fst.events = [] →
        (do_resume_event_queue res ref sample σ).fst.timer = σ.timer) ∧
      (∀ e rest,
        (do_resume_event_queue res ref sample σ).fst.events = e :: rest →
        (do_resume_event_queue res ref sample σ).fst.timer =
          tv_sub e.trigger_time (ref.getD sample))) := by
  have htv : (match ref with | none => sample | some t => t) = ref.getD sample := by
    cases ref <;> rfl
  refine ⟨?_, ?_, ?_⟩
  · intro hact
    simp only [do_resume_event_queue, sync_set]
    rw [if_pos hact]
    cases σ
    simp_all
  · rfl
  · intro hnact
    have hev : (do_trigger_time_event res (ref.getD sample)
        { σ with state := EVENT_QUEUE_ACTIVE }).fst.events =
        σ.events.filter (fun e => !is_due (tv_add (ref.getD sample) res) e) := by
      rw [do_trigger_fst_events]
      exact sorted_dropWhile_eq_filter _ hs
    simp only [do_resume_event_queue, sync_set, htv]
    rw [if_neg hnact]
    cases hcase : (do_trigger_time_event res (ref.getD sample)
        { σ with state := EVENT_QUEUE_ACTIVE }).fst.events with
    | nil =>
      simp only [hcase]
      have hfe : σ.events.filter
          (fun e => !is_due (tv_add (ref.getD sample) res) e) = [] := by
        rw [← hev, hcase]
      refine ⟨hfe.symm, ?_, ?_, ?_⟩
      · rw [do_trigger_fst_state]
      · intro _
        rw [do_trigger_fst_timer]
      · intro e rest hcontra
        exact absurd hcontra (by simp)
    | cons e0 rest0 =>
      simp only [hcase, set_timer]
      refine ⟨?_, ?_, ?_, ?_⟩
      · rw [← hcase, hev]
      · rw [do_trigger_fst_state]
      · intro hcontra
        exact absurd hcontra (by simp)
      · intro e rest hline
        injection hline with h1 h2
        rw [h1]

/-- C5 witness event: context 8, trigger time 50 (beyond the window). -/
def c5_event : Event := ⟨some 6, 8, 0, 50, 0⟩

/-- C5 witness input: EMPTY-state queue holding one not-yet-due event. -/
def c5_sigma : TEQState :=
  { state := 0, nr_event := 0, events := [c5_event],
    free_event := [], timer := 0, index := [(8, 0)], nextSeq := 1 }

/-- C5 witness: resuming the concrete non-ACTIVE queue fires nothing (the
event is outside the window), leaves the state ACTIVE and arms the timer for
`trigger_time − reference_time` = 50. -/
theorem C5_resume_witness :
    (do_resume_event_queue 10 (some 0) 0 c5_sigma).fst.events = [c5_event] ∧
    (do_resume_event_queue 10 (some 0) 0 c5_sigma).fst.state =
        EVENT_QUEUE_ACTIVE ∧
    (do_resume_event_queue 10 (some 0) 0 c5_sigma).fst.timer = 50 := by
  have h := (C5_resume_semantics 10 (some 0) 0 c5_sigma (by simp [c5_sigma])).2.2
    (by decide)
  refine ⟨?_, h.2.1, ?_⟩
  · rw [h.1]
    decide
  · have ht := h.2.2.2 c5_event [] (by rw [h.1]; decide)
    rw [ht]
    decide

/-- The event list surviving a resume that found the queue not yet ACTIVE:
the events of the pended state with the due prefix (relative to
`reference + resolution`) dropped. -/
theorem do_resume_fst_events_not_active (res : Int) (n : Option Int) (s : Int)
    (σ : TEQState) (h : ¬σ.state = EVENT_QUEUE_ACTIVE) :
    (do_resume_event_queue res n s σ).fst.events =
      σ.events.dropWhile (is_due (tv_add (n.getD s) res)) := by
  have htv : (match n with | none => s | some t => t) = n.getD s := by
    cases n <;> rfl
  simp only [do_resume_event_queue, sync_set, htv]
  rw [if_neg h]
  cases hcase : (do_trigger_time_event res (n.getD s)
      { σ with state := EVENT_QUEUE_ACTIVE }).fst.events with
  | nil =>
    simp only [hcase]
    rw [← hcase, do_trigger_fst_events]
  | cons a b =>
    simp only [hcase, set_timer]
    rw [← hcase, do_trigger_fst_events]

/-- C4: the asynchronous notification (`trigger_time_event`).  If the pend
observes PENDING, the call defers: the returned state is the input state
unchanged and nothing fires.  Otherwise all due events fire; if the store
drained empty the state is set directly to EMPTY with no resume call, and if
events remain exactly one resume is performed, with reference time
`now − timer_resolution` (compensating the symmetric addition inside the due
scan), leaving the state ACTIVE with the surviving events untouched. -/
theorem C4_notification_dispatch (res now : Int) (σ : TEQState)
    (hs : σ.events.Pairwise evLT) (hres : 0 ≤ res) :
    (σ.state = EVENT_QUEUE_PENDING → trigger_time_event res now σ = (σ, [])) ∧
    (¬σ.state = EVENT_QUEUE_PENDING →
      (trigger_time_event res now σ).fst.events =
          σ.events.filter (fun e => !is_due (tv_add now res) e) ∧
      (σ.events.filter (fun e => !is_due (tv_add now res) e) = [] →
        (trigger_time_event res now σ).fst.state = EVENT_QUEUE_EMPTY ∧
        resumeCalls (trigger_time_event res now σ).snd = 0) ∧
      (¬σ.events.filter (fun e => !is_due (tv_add now res) e) = [] →
        resumeCalls (trigger_time_event res now σ).snd = 1 ∧
        Act.resumeCall (some (tv_sub now res)) ∈
          (trigger_time_event res now σ).snd ∧
        (trigger_time_event res now σ).fst.state = EVENT_QUEUE_ACTIVE)) := by
  constructor
  · intro hp
    simp only [trigger_time_event]
    have hc : (do_pend_event_queue σ).fst = EVENT_QUEUE_PENDING := by
      rw [do_pend_fst]; exact hp
    rw [if_pos hc, do_pend_snd, if_pos hp]
    cases σ
    simp_all
  · intro hnp
    have hc : ¬(do_pend_event_queue σ).fst = EVENT_QUEUE_PENDING := by
      rw [do_pend_fst]; exact hnp
    simp only [trigger_time_event]
    rw [if_neg hc, do_pend_snd, if_neg hnp]
    have hev : (do_trigger_time_event res now
        { σ with state := EVENT_QUEUE_PENDING, timer := 0 }).fst.events =
        σ.events.filter (fun e => !is_due (tv_add now res) e) := by
      rw [do_trigger_fst_events]
      exact sorted_dropWhile_eq_filter _ hs
    by_cases hfe : σ.events.filter (fun e => !is_due (tv_add now res) e) = []
    · rw [if_pos (by rw [hev]; exact hfe)]
      refine ⟨?_, ?_, ?_⟩
      · exact hev
      · intro _
        exact ⟨rfl, do_trigger_resumeCalls _ _ _⟩
      · intro hcontra
        exact absurd hfe hcontra
    · rw [if_neg (by rw [hev]; exact hfe)]
      have hτ : ¬(do_trigger_time_event res now
          { σ with state := EVENT_QUEUE_PENDING, timer := 0 }).fst.state =
          EVENT_QUEUE_ACTIVE := by
        rw [do_trigger_fst_state]
        show ¬EVENT_QUEUE_PENDING = EVENT_QUEUE_ACTIVE
        decide
      have harg : tv_add ((some (tv_sub now res)).getD now) res = now := by
        show tv_add (tv_sub now res) res = now
        unfold tv_add tv_sub
        omega
      have hkeep : (do_resume_event_queue res (some (tv_sub now res)) now
          (do_trigger_time_event res now
            { σ with state := EVENT_QUEUE_PENDING, timer := 0 }).fst).fst.events =
          σ.events.filter (fun e => !is_due (tv_add now res) e) := by
        rw [do_resume_fst_events_not_active _ _ _ _ hτ, harg, hev]
        cases hfl : σ.events.filter (fun e => !is_due (tv_add now res) e) with
        | nil => rfl
        | cons a b =>
          have ha : a ∈ σ.events.filter (fun e => !is_due (tv_add now res) e) := by
            rw [hfl]
            exact List.mem_cons_self _ _
          have ha2 := (List.mem_filter.mp ha).2
          have ha3 : ¬a.trigger_time ≤ tv_add now res := by
            intro hle
            rw [is_due_iff.mpr hle] at ha2
            exact absurd ha2 (by decide)
          have hnd : ¬is_due now a = true := by
            intro hdd
            exact ha3 (le_trans (is_due_iff.mp hdd) (by unfold tv_add; omega))
          rw [List.dropWhile_cons, if_neg hnd]
      refine ⟨hkeep, fun hcontra => absurd hcontra hfe, ?_⟩
      intro _
      refine ⟨?_, ?_, ?_⟩
      · rw [resumeCalls_append, resumeCalls_resumeCall_cons,
          do_trigger_resumeCalls, do_resume_snd_resumeCalls]
      · exact List.mem_append_right _ (List.mem_cons_self _ _)
      · exact do_resume_fst_state _ _ _ _

/-- C4 witness: from the concrete EMPTY-state queue with one event outside
the window, the notification keeps the event, resumes exactly once, and the
resume carries `now − timer_resolution`. -/
theorem C4_notification_witness :
    (trigger_time_event 10 0 c5_sigma).fst.events =
        c5_sigma.events.filter (fun e => !is_due (tv_add 0 10) e) ∧
    resumeCalls (trigger_time_event 10 0 c5_sigma).snd = 1 ∧
    Act.resumeCall (some (tv_sub 0 10)) ∈ (trigger_time_event 10 0 c5_sigma).snd := by
  have h := (C4_notification_dispatch 10 0 c5_sigma (by simp [c5_sigma])
    (by decide)).2 (by decide)
  exact ⟨h.1, (h.2.2 (by decide)).1, (h.2.2 (by decide)).2.1⟩

/-! ### Scheduling a sub-resolution delay -/

/-- Test whether a trace action is the invocation of event `e` with time
argument `t` (whatever the index snapshot was). -/
def isInvokeOf (e : Event) (t : Int) : Act → Bool := fun a =>
  match a with
  | Act.invoke e' t' _ => e' == e && t' == t
  | _ => false

theorem do_resume_fst_events_sublist (res : Int) (n : Option Int) (s : Int)
    (σ : TEQState) :
    List.Sublist (do_resume_event_queue res n s σ).fst.events σ.events := by
  simp only [do_resume_event_queue, sync_set]
  split
  · exact List.Sublist.refl _
  · split
    · rw [do_trigger_fst_events]
      exact List.dropWhile_sublist _
    · simp only [set_timer]
      rw [do_trigger_fst_events]
      exact List.dropWhile_sublist _

/-- C8: a `schedule` call whose delay is strictly below the coalescing
resolution fires its handler synchronously inside the `add_time_event` call
itself: the due scan that `add_time_event` performs before returning invokes
the new event's handler (with time argument `now + resolution`), and the new
event is no longer pending when the call returns, so no later asynchronous
notification is involved. -/
theorem C8_subresolution_fires_in_schedule (res tv : Int) (hv priv : Nat)
    (now : Int) (σ σ' : TEQState) (acts : List Act)
    (hs : σ.events.Pairwise evLT)
    (hseq : ∀ e ∈ σ.events, e.seq ≠ σ.nextSeq)
    (hlt : tv_cmp tv res = -1)
    (heq : add_time_event res true tv (some hv) priv now σ = some (σ', acts)) :
    acts.any (isInvokeOf
      { handler := some hv, priv := priv, start_time := now,
        trigger_time := tv_add now tv, seq := σ.nextSeq }
      (tv_add now res)) = true ∧
    (∀ e ∈ σ'.events, e.seq ≠ σ.nextSeq) := by
  rw [add_time_event_true_eq] at heq
  injection heq with heq
  have hσ' : σ' = (add_time_event_run res tv (some hv) priv now σ).fst := by
    rw [heq]
  have hacts : acts = (add_time_event_run res tv (some hv) priv now σ).snd := by
    rw [heq]
  subst hσ'
  subst hacts
  simp only [add_time_event_run]
  rw [← do_pend_snd_nextSeq σ]
  set σ1 := (do_pend_event_queue σ).snd with hσ1
  have hs1 : σ1.events.Pairwise evLT := by
    rw [hσ1, do_pend_snd_events]; exact hs
  have hseq1 : ∀ e ∈ σ1.events, e.seq ≠ σ1.nextSeq := by
    rw [hσ1, do_pend_snd_events, do_pend_snd_nextSeq]; exact hseq
  set ev : Event := ⟨some hv, priv, now, tv_add now tv, σ1.nextSeq⟩ with hevdef
  have hdue : is_due (tv_add now res) ev = true := by
    apply is_due_iff.mpr
    show tv_add now tv ≤ tv_add now res
    have := tv_cmp_neg_iff.mp hlt
    unfold tv_add
    omega
  have hskip : ∀ x ∈ σ1.events,
      ¬tv_cmp ev.trigger_time x.trigger_time = -1 →
      is_due (tv_add now res) x = true := by
    intro x hx hcx
    exact is_due_iff.mpr
      (le_trans (tv_cmp_not_neg hcx) (is_due_iff.mp hdue))
  have htw : ev ∈ (insert_in_order ev σ1.events).takeWhile
      (is_due (tv_add now res)) := insert_takeWhile_mem hdue hskip
  set σ2 : TEQState := { σ1 with
    free_event := σ1.free_event.tail,
    index := hash_map_64_add_member σ1.index priv ev.seq,
    events := insert_in_order ev σ1.events,
    nextSeq := σ1.nextSeq + 1 } with hσ2
  have hfired : ev ∈ (triggerLoop (tv_add now res) σ2.events σ2.index
      σ2.free_event).fired := by
    rw [triggerLoop_fired]
    exact htw
  have hinvoke : ∃ m, Act.invoke ev (tv_add now res) m ∈
      (triggerLoop (tv_add now res) σ2.events σ2.index σ2.free_event).acts :=
    triggerLoop_invoke_exists hfired rfl
  have hnotin : ev ∉ σ1.events := fun hin => (hseq1 ev hin) rfl
  have hcnt : (insert_in_order ev σ1.events).count ev = 1 := by
    rw [count_insert_in_order, List.count_eq_zero.mpr hnotin]
  have hdropped : ev ∉ (insert_in_order ev σ1.events).dropWhile
      (is_due (tv_add now res)) := by
    intro hin
    have h1 := List.count_pos_iff.mpr htw
    have h2 := List.count_pos_iff.mpr hin
    have h3 := List.takeWhile_append_dropWhile (is_due (tv_add now res))
      (insert_in_order ev σ1.events)
    rw [← h3, List.count_append] at hcnt
    omega
  have htrev : (do_trigger_time_event res now σ2).fst.events =
      (insert_in_order ev σ1.events).dropWhile (is_due (tv_add now res)) := by
    rw [do_trigger_fst_events]
  have hafter : ∀ e ∈ (do_trigger_time_event res now σ2).fst.events,
      e.seq ≠ σ1.nextSeq := by
    intro e he
    rw [htrev] at he
    have hins : e ∈ insert_in_order ev σ1.events :=
      (List.dropWhile_sublist _).mem he
    rcases mem_insert_in_order.mp hins with rfl | hmem
    · exact absurd he hdropped
    · exact hseq1 e hmem
  constructor
  · split
    · apply List.any_eq_true.mpr
      rcases hinvoke with ⟨m, hm⟩
      refine ⟨Act.invoke ev (tv_add now res) m, List.mem_append_left _ hm, ?_⟩
      simp [isInvokeOf]
    · apply List.any_eq_true.mpr
      rcases hinvoke with ⟨m, hm⟩
      refine ⟨Act.invoke ev (tv_add now res) m, hm, ?_⟩
      simp [isInvokeOf]
  · split
    · intro e he
      exact hafter e ((do_resume_fst_events_sublist _ _ _ _).mem he)
    · exact hafter

/-- C8 witness run: delay 400 below the resolution 1000, scheduled from the
initial state at time 100. -/
def c8_run : TEQState × List Act :=
  add_time_event_run 1000 400 (some 9) 3 100 time_event_queue_init

/-- C8 witness: the concrete sub-resolution schedule carries the invocation
of its own handler in its own trace. -/
theorem C8_subresolution_witness :
    c8_run.snd.any (isInvokeOf
      { handler := some 9, priv := 3, start_time := 100,
        trigger_time := tv_add 100 400, seq := 0 } (tv_add 100 1000)) = true :=
  (C8_subresolution_fires_in_schedule 1000 400 9 3 100 time_event_queue_init
    c8_run.fst c8_run.snd (by simp [time_event_queue_init])
    (by simp [time_event_queue_init]) (by decide)
    (by rw [add_time_event_true_eq]; rfl)).1

/-! ### Ordering of the store and of firing -/

/-- C1 counterexample: two schedule calls with distinct contexts (1 and 2)
and distinct delays, under a positive coalescing resolution (1000 µs here;
any resolution of at least 2 µs admits such a run).  The first call at
`now = 0` schedules delay 900, inside the window, so its handler fires
immediately with trigger time 900; the second call at `now = 10` schedules
delay 500, also inside the window, so its handler fires immediately with
trigger time 510.  The observed firing order of trigger times is
`[900, 510]` — strictly decreasing — so "handlers fire in nondecreasing
order of absolute trigger time" is false as a global property of all
schedule sequences. -/
theorem C1_counterexample :
    (runSchedules 1000 [⟨900, some 1, 1, 0⟩, ⟨500, some 2, 2, 10⟩]
        time_event_queue_init).map (fun p => firedTriggers p.snd) =
      some [900, 510] ∧
    ¬List.Pairwise (fun a b => a ≤ b) [(900 : Int), 510] := by
  constructor
  · decide
  · decide

/-- C1 (amended): for every sequence of schedule calls from the initial
state, the event store stays sorted ascending by trigger time with ties in
submission order (the ghost `seq` tags increase with submission, and
insertion places a new event after all existing events with the same or
earlier trigger time, before the first strictly later one); and each single
due-event scan fires its events in that same nondecreasing order.  The
original claim's further assertion — that the concatenation of all firings
across an entire run is globally nondecreasing — fails because the
coalescing window can fire an event early, before a later-scheduled event
with an earlier trigger time (see the counterexample). -/
theorem C1_store_sorted_and_scan_ordered :
    (∀ res calls σ' acts,
        runSchedules res calls time_event_queue_init = some (σ', acts) →
        σ'.events.Pairwise evLT) ∧
    (∀ res now σ, σ.events.Pairwise evLT →
        (do_trigger_time_event res now σ).snd.fired.Pairwise evLT) := by
  constructor
  · intro res calls σ' acts heq
    exact (Inv_run res calls time_event_queue_init Inv_init σ' acts heq).1
  · intro res now σ hp
    rw [do_trigger_snd, triggerLoop_fired]
    exact List.Pairwise.sublist (List.takeWhile_sublist _) hp

/-- C1 witness: the sortedness read off a concrete two-call run (distinct
contexts, out-of-order delays) and a concrete scan. -/
theorem C1_store_sorted_witness :
    List.Pairwise evLT
      (((runSchedules 1000 [⟨5000, some 1, 1, 0⟩, ⟨3000, some 2, 2, 10⟩]
          time_event_queue_init).getD (time_event_queue_init, [])).fst.events) ∧
    List.Pairwise evLT
      ((do_trigger_time_event 100 0
        { state := 1, nr_event := 0,
          events := [⟨some 5, 3, 0, 50, 0⟩, ⟨some 6, 4, 0, 80, 1⟩],
          free_event := [], timer := 0, index := [(3, 0), (4, 1)],
          nextSeq := 2 }).snd.fired) := by
  constructor
  · exact C1_store_sorted_and_scan_ordered.1 1000
      [⟨5000, some 1, 1, 0⟩, ⟨3000, some 2, 2, 10⟩] _ _ (by rfl)
  · exact C1_store_sorted_and_scan_ordered.2 100 0 _ (by decide)

end TEQ
